import Mathlib

/-!
Verification of the Intcode machine family implemented in this repository.

The repository implements the same small virtual machine in several
programs.  The richest variant lives in problem-9 (three addressing
modes, a relative base register, channel I/O); problem-7 is the same
machine without the relative mode, plus the pipeline composer
(permutation search over phase settings); problem-11 is the variant
driving the painting robot.

Modelling conventions used throughout:
* machine words (Rust isize) are modelled as unbounded Int; the
  `as usize` casts in the source are modelled by reduction modulo 2^64
  (`usizeOf`), which is exact for every value an isize can hold;
* Vec indexing is modelled by `List.get?` / a guarded update, where a
  `none` result corresponds to the out-of-bounds panic of the source;
* the mpsc channels are modelled by value queues carried in the machine
  state: the receiver side is the list `input_signal`, the sender side
  appends to the list `output`;
* a Rust panic (index out of bounds, unknown opcode or mode digit,
  `recv` from a disconnected empty channel followed by `unwrap`) is the
  terminal result `fault`; the halt instruction is the distinct
  terminal result `halted`, which keeps the final state;
* divergence and indefinite blocking are modelled by a fuel parameter:
  exhausting the fuel yields `outOfFuel`, never mistaken for a result.
-/

/-- Model of the Rust cast `as usize` applied to an isize value:
the value is reduced modulo 2^64 (nonnegative representative). -/
def usizeOf (w : Int) : Nat := (w % (2 : Int) ^ 64).toNat

namespace P9

/-- Addressing modes of the problem-9 machine (source: enum Mode). -/
inductive Mode where
  | position
  | value
  | relative
deriving DecidableEq

/-- Source: Mode::from_code.  An unknown code panics, modelled by none. -/
def Mode.from_code : Nat → Option Mode
  | 0 => some .position
  | 1 => some .value
  | 2 => some .relative
  | _ => none

/-- Source: struct IntcodeMachine of problem-9.  The two channel
endpoints are modelled as the pending input queue and the list of
values sent so far. -/
structure IntcodeMachine where
  memory : List Int
  cmd_ptr : Nat
  rel_base : Int
  phase_setting : Option Int
  input_signal : List Int
  output : List Int
deriving DecidableEq

/-- Source: IntcodeMachine::new of problem-9. -/
def IntcodeMachine.new (program : List Int) (phase : Int) (input : List Int) :
    IntcodeMachine :=
  { memory := program
    cmd_ptr := 0
    rel_base := 0
    phase_setting := some phase
    input_signal := input
    output := [] }

/-- Result of one handler or one fetch-decode-execute step.  `halted`
is the Rust `None` return of the iterator (keeping the final state);
`fault` is a panic. -/
inductive StepRes where
  | ok (m : IntcodeMachine)
  | halted (m : IntcodeMachine)
  | fault
deriving DecidableEq

/-- Source: IntcodeMachine::decode_instruction.  Reads the word at the
instruction pointer (out of bounds panics), advances the pointer by
one, casts the word to usize, and decodes the three mode digits at
decimal positions 2, 3 and 4; opcode is the cast word modulo 100.  An
unknown mode digit panics. -/
def decode_instruction (m : IntcodeMachine) :
    Option (Nat × List Mode × IntcodeMachine) :=
  match m.memory.get? m.cmd_ptr with
  | none => none
  | some w =>
    match Mode.from_code (usizeOf w / 10 ^ 2 % 10),
        Mode.from_code (usizeOf w / 10 ^ 3 % 10),
        Mode.from_code (usizeOf w / 10 ^ 4 % 10) with
    | some a, some b, some c =>
      some (usizeOf w % 100, [a, b, c], { m with cmd_ptr := m.cmd_ptr + 1 })
    | _, _, _ => none

/-- Declared parameter count per opcode (source: the match inside
get_current_memory_slice); an unknown opcode panics. -/
def arg_count : Nat → Option Nat
  | 1 => some 3
  | 2 => some 3
  | 3 => some 1
  | 4 => some 1
  | 5 => some 2
  | 6 => some 2
  | 7 => some 3
  | 8 => some 3
  | 9 => some 1
  | 99 => some 0
  | _ => none

/-- Source: IntcodeMachine::get_current_memory_slice.  The slice
memory[cmd_ptr .. cmd_ptr + arg_count]; taking it out of bounds
panics. -/
def get_current_memory_slice (m : IntcodeMachine) (opcode : Nat) :
    Option (List Int) :=
  match arg_count opcode with
  | none => none
  | some n =>
    if m.cmd_ptr + n ≤ m.memory.length then
      some ((m.memory.drop m.cmd_ptr).take n)
    else
      none

/-- Resolution of one raw parameter under one mode (the closure inside
build_args): position casts the raw value to usize, value uses the
address of the parameter slot itself (cmd_ptr + index, with cmd_ptr
already past the opcode word), relative casts rel_base + raw. -/
def resolve (m : IntcodeMachine) (i : Nat) (raw : Int) : Mode → Nat
  | .position => usizeOf raw
  | .value => m.cmd_ptr + i
  | .relative => usizeOf (m.rel_base + raw)

/-- Source: IntcodeMachine::build_args.  Raw parameters are zipped
with the decoded modes (the zip truncates to the parameter count) and
each is resolved to a concrete address. -/
def build_args (m : IntcodeMachine) (raw_args : List Int) (modes : List Mode) :
    List Nat :=
  ((raw_args.zip modes).enum).map fun p => resolve m p.1 p.2.1 p.2.2

/-- Read of memory[a]; out of bounds panics (none). -/
def memRead (m : IntcodeMachine) (a : Nat) : Option Int :=
  m.memory.get? a

/-- Write of memory[a]; out of bounds panics (none). -/
def memWrite (m : IntcodeMachine) (a : Nat) (v : Int) : Option IntcodeMachine :=
  if a < m.memory.length then some { m with memory := m.memory.set a v }
  else none

/-- Source: IntcodeMachine::add (opcode 1). -/
def add (m : IntcodeMachine) : List Nat → StepRes
  | [a, b, o] =>
    match memRead m a, memRead m b with
    | some x, some y =>
      match memWrite m o (x + y) with
      | some m2 => .ok { m2 with cmd_ptr := m2.cmd_ptr + 3 }
      | none => .fault
    | _, _ => .fault
  | _ => .halted m

/-- Source: IntcodeMachine::mul (opcode 2). -/
def mul (m : IntcodeMachine) : List Nat → StepRes
  | [a, b, o] =>
    match memRead m a, memRead m b with
    | some x, some y =>
      match memWrite m o (x * y) with
      | some m2 => .ok { m2 with cmd_ptr := m2.cmd_ptr + 3 }
      | none => .fault
    | _, _ => .fault
  | _ => .halted m

/-- Source: IntcodeMachine::store (opcode 3).  The one-shot phase
setting is consumed first (Option::take); afterwards the next queued
input value is pulled; an empty queue means the blocking recv can only
fail (disconnected sender), which the source unwraps into a panic. -/
def store (m : IntcodeMachine) : List Nat → StepRes
  | [dst] =>
    match m.phase_setting with
    | some p =>
      match memWrite { m with phase_setting := none } dst p with
      | some m2 => .ok { m2 with cmd_ptr := m2.cmd_ptr + 1 }
      | none => .fault
    | none =>
      match m.input_signal with
      | v :: rest =>
        match memWrite { m with input_signal := rest } dst v with
        | some m2 => .ok { m2 with cmd_ptr := m2.cmd_ptr + 1 }
        | none => .fault
      | [] => .fault
  | _ => .halted m

/-- Source: IntcodeMachine::push_output (opcode 4). -/
def push_output (m : IntcodeMachine) : List Nat → StepRes
  | [src] =>
    match memRead m src with
    | some v => .ok { m with output := m.output ++ [v], cmd_ptr := m.cmd_ptr + 1 }
    | none => .fault
  | _ => .halted m

/-- Source: IntcodeMachine::jump_if_true (opcode 5). -/
def jump_if_true (m : IntcodeMachine) : List Nat → StepRes
  | [c, t] =>
    match memRead m c with
    | some cv =>
      if cv ≠ 0 then
        match memRead m t with
        | some tv => .ok { m with cmd_ptr := usizeOf tv }
        | none => .fault
      else
        .ok { m with cmd_ptr := m.cmd_ptr + 2 }
    | none => .fault
  | _ => .halted m

/-- Source: IntcodeMachine::jump_if_false (opcode 6). -/
def jump_if_false (m : IntcodeMachine) : List Nat → StepRes
  | [c, t] =>
    match memRead m c with
    | some cv =>
      if cv = 0 then
        match memRead m t with
        | some tv => .ok { m with cmd_ptr := usizeOf tv }
        | none => .fault
      else
        .ok { m with cmd_ptr := m.cmd_ptr + 2 }
    | none => .fault
  | _ => .halted m

/-- Source: IntcodeMachine::less_than (opcode 7). -/
def less_than (m : IntcodeMachine) : List Nat → StepRes
  | [a, b, o] =>
    match memRead m a, memRead m b with
    | some x, some y =>
      match memWrite m o (if x < y then 1 else 0) with
      | some m2 => .ok { m2 with cmd_ptr := m2.cmd_ptr + 3 }
      | none => .fault
    | _, _ => .fault
  | _ => .halted m

/-- Source: IntcodeMachine::equals (opcode 8). -/
def equals (m : IntcodeMachine) : List Nat → StepRes
  | [a, b, o] =>
    match memRead m a, memRead m b with
    | some x, some y =>
      match memWrite m o (if x = y then 1 else 0) with
      | some m2 => .ok { m2 with cmd_ptr := m2.cmd_ptr + 3 }
      | none => .fault
    | _, _ => .fault
  | _ => .halted m

/-- Source: IntcodeMachine::mutate_rel_base (opcode 9). -/
def mutate_rel_base (m : IntcodeMachine) : List Nat → StepRes
  | [d] =>
    match memRead m d with
    | some delta => .ok { m with rel_base := m.rel_base + delta, cmd_ptr := m.cmd_ptr + 1 }
    | none => .fault
  | _ => .halted m

/-- Source: IntcodeMachine::halt (opcode 99): returns None, ending the
iteration with the state untouched. -/
def halt (m : IntcodeMachine) : List Nat → StepRes :=
  fun _ => .halted m

/-- Source: the dispatch match inside IntcodeMachine::get_command; an
unknown opcode panics. -/
def get_command (opcode : Nat) :
    Option (IntcodeMachine → List Nat → StepRes) :=
  match opcode with
  | 1 => some add
  | 2 => some mul
  | 3 => some store
  | 4 => some push_output
  | 5 => some jump_if_true
  | 6 => some jump_if_false
  | 7 => some less_than
  | 8 => some equals
  | 9 => some mutate_rel_base
  | 99 => some halt
  | _ => none

/-- Source: IntcodeMachine::execute_step: decode, slice the raw
parameters, resolve them, dispatch. -/
def execute_step (m : IntcodeMachine) : StepRes :=
  match decode_instruction m with
  | none => .fault
  | some (opcode, modes, m1) =>
    match get_current_memory_slice m1 opcode with
    | none => .fault
    | some slice =>
      match get_command opcode with
      | none => .fault
      | some cmd => cmd m1 (build_args m1 slice modes)

/-- Result of running the machine to completion. -/
inductive RunRes where
  | halted (m : IntcodeMachine)
  | fault
  | outOfFuel
deriving DecidableEq

/-- Source: IntcodeMachine::run (the iterator driven with for_each),
with a fuel bound standing in for actual divergence or blocking. -/
def run : Nat → IntcodeMachine → RunRes
  | 0, _ => .outOfFuel
  | fuel + 1, m =>
    match execute_step m with
    | .ok m2 => run fuel m2
    | .halted m2 => .halted m2
    | .fault => .fault

end P9

namespace P7

/-- Addressing modes of the problem-7 machine (source: enum Mode);
this earlier variant has no relative mode. -/
inductive Mode where
  | position
  | value
deriving DecidableEq

/-- Source: Mode::from_code of problem-7. -/
def Mode.from_code : Nat → Option Mode
  | 0 => some .position
  | 1 => some .value
  | _ => none

/-- Source: struct IntcodeMachine of problem-7 (no rel_base field). -/
structure IntcodeMachine where
  memory : List Int
  cmd_ptr : Nat
  phase_setting : Option Int
  input_signal : List Int
  output : List Int
deriving DecidableEq

/-- Source: IntcodeMachine::new of problem-7. -/
def IntcodeMachine.new (program : List Int) (phase : Int) (input : List Int) :
    IntcodeMachine :=
  { memory := program
    cmd_ptr := 0
    phase_setting := some phase
    input_signal := input
    output := [] }

/-- Step result for the problem-7 machine. -/
inductive StepRes where
  | ok (m : IntcodeMachine)
  | halted (m : IntcodeMachine)
  | fault
deriving DecidableEq

/-- Source: IntcodeMachine::decode_instruction of problem-7. -/
def decode_instruction (m : IntcodeMachine) :
    Option (Nat × List Mode × IntcodeMachine) :=
  match m.memory.get? m.cmd_ptr with
  | none => none
  | some w =>
    match Mode.from_code (usizeOf w / 10 ^ 2 % 10),
        Mode.from_code (usizeOf w / 10 ^ 3 % 10),
        Mode.from_code (usizeOf w / 10 ^ 4 % 10) with
    | some a, some b, some c =>
      some (usizeOf w % 100, [a, b, c], { m with cmd_ptr := m.cmd_ptr + 1 })
    | _, _, _ => none

/-- Parameter count per opcode of problem-7 (no opcode 9). -/
def arg_count : Nat → Option Nat
  | 1 => some 3
  | 2 => some 3
  | 3 => some 1
  | 4 => some 1
  | 5 => some 2
  | 6 => some 2
  | 7 => some 3
  | 8 => some 3
  | 99 => some 0
  | _ => none

/-- Source: IntcodeMachine::get_current_memory_slice of problem-7. -/
def get_current_memory_slice (m : IntcodeMachine) (opcode : Nat) :
    Option (List Int) :=
  match arg_count opcode with
  | none => none
  | some n =>
    if m.cmd_ptr + n ≤ m.memory.length then
      some ((m.memory.drop m.cmd_ptr).take n)
    else
      none

/-- Parameter resolution of problem-7 (the closure inside
build_args). -/
def resolve (m : IntcodeMachine) (i : Nat) (raw : Int) : Mode → Nat
  | .position => usizeOf raw
  | .value => m.cmd_ptr + i

/-- Source: IntcodeMachine::build_args of problem-7. -/
def build_args (m : IntcodeMachine) (raw_args : List Int) (modes : List Mode) :
    List Nat :=
  ((raw_args.zip modes).enum).map fun p => resolve m p.1 p.2.1 p.2.2

/-- Read of memory[a]; out of bounds panics (none). -/
def memRead (m : IntcodeMachine) (a : Nat) : Option Int :=
  m.memory.get? a

/-- Write of memory[a]; out of bounds panics (none). -/
def memWrite (m : IntcodeMachine) (a : Nat) (v : Int) : Option IntcodeMachine :=
  if a < m.memory.length then some { m with memory := m.memory.set a v }
  else none

/-- Source: IntcodeMachine::add of problem-7. -/
def add (m : IntcodeMachine) : List Nat → StepRes
  | [a, b, o] =>
    match memRead m a, memRead m b with
    | some x, some y =>
      match memWrite m o (x + y) with
      | some m2 => .ok { m2 with cmd_ptr := m2.cmd_ptr + 3 }
      | none => .fault
    | _, _ => .fault
  | _ => .halted m

/-- Source: IntcodeMachine::mul of problem-7. -/
def mul (m : IntcodeMachine) : List Nat → StepRes
  | [a, b, o] =>
    match memRead m a, memRead m b with
    | some x, some y =>
      match memWrite m o (x * y) with
      | some m2 => .ok { m2 with cmd_ptr := m2.cmd_ptr + 3 }
      | none => .fault
    | _, _ => .fault
  | _ => .halted m

/-- Source: IntcodeMachine::store of problem-7 (same one-shot phase
setting contract as problem-9). -/
def store (m : IntcodeMachine) : List Nat → StepRes
  | [dst] =>
    match m.phase_setting with
    | some p =>
      match memWrite { m with phase_setting := none } dst p with
      | some m2 => .ok { m2 with cmd_ptr := m2.cmd_ptr + 1 }
      | none => .fault
    | none =>
      match m.input_signal with
      | v :: rest =>
        match memWrite { m with input_signal := rest } dst v with
        | some m2 => .ok { m2 with cmd_ptr := m2.cmd_ptr + 1 }
        | none => .fault
      | [] => .fault
  | _ => .halted m

/-- Source: IntcodeMachine::push_output of problem-7. -/
def push_output (m : IntcodeMachine) : List Nat → StepRes
  | [src] =>
    match memRead m src with
    | some v => .ok { m with output := m.output ++ [v], cmd_ptr := m.cmd_ptr + 1 }
    | none => .fault
  | _ => .halted m

/-- Source: IntcodeMachine::jump_if_true of problem-7. -/
def jump_if_true (m : IntcodeMachine) : List Nat → StepRes
  | [c, t] =>
    match memRead m c with
    | some cv =>
      if cv ≠ 0 then
        match memRead m t with
        | some tv => .ok { m with cmd_ptr := usizeOf tv }
        | none => .fault
      else
        .ok { m with cmd_ptr := m.cmd_ptr + 2 }
    | none => .fault
  | _ => .halted m

/-- Source: IntcodeMachine::jump_if_false of problem-7. -/
def jump_if_false (m : IntcodeMachine) : List Nat → StepRes
  | [c, t] =>
    match memRead m c with
    | some cv =>
      if cv = 0 then
        match memRead m t with
        | some tv => .ok { m with cmd_ptr := usizeOf tv }
        | none => .fault
      else
        .ok { m with cmd_ptr := m.cmd_ptr + 2 }
    | none => .fault
  | _ => .halted m

/-- Source: IntcodeMachine::less_than of problem-7. -/
def less_than (m : IntcodeMachine) : List Nat → StepRes
  | [a, b, o] =>
    match memRead m a, memRead m b with
    | some x, some y =>
      match memWrite m o (if x < y then 1 else 0) with
      | some m2 => .ok { m2 with cmd_ptr := m2.cmd_ptr + 3 }
      | none => .fault
    | _, _ => .fault
  | _ => .halted m

/-- Source: IntcodeMachine::equals of problem-7. -/
def equals (m : IntcodeMachine) : List Nat → StepRes
  | [a, b, o] =>
    match memRead m a, memRead m b with
    | some x, some y =>
      match memWrite m o (if x = y then 1 else 0) with
      | some m2 => .ok { m2 with cmd_ptr := m2.cmd_ptr + 3 }
      | none => .fault
    | _, _ => .fault
  | _ => .halted m

/-- Source: IntcodeMachine::halt of problem-7. -/
def halt (m : IntcodeMachine) : List Nat → StepRes :=
  fun _ => .halted m

/-- Source: the dispatch match inside get_command of problem-7. -/
def get_command (opcode : Nat) :
    Option (IntcodeMachine → List Nat → StepRes) :=
  match opcode with
  | 1 => some add
  | 2 => some mul
  | 3 => some store
  | 4 => some push_output
  | 5 => some jump_if_true
  | 6 => some jump_if_false
  | 7 => some less_than
  | 8 => some equals
  | 99 => some halt
  | _ => none

/-- Source: IntcodeMachine::execute_step of problem-7. -/
def execute_step (m : IntcodeMachine) : StepRes :=
  match decode_instruction m with
  | none => .fault
  | some (opcode, modes, m1) =>
    match get_current_memory_slice m1 opcode with
    | none => .fault
    | some slice =>
      match get_command opcode with
      | none => .fault
      | some cmd => cmd m1 (build_args m1 slice modes)

/-- Result of running the problem-7 machine to completion. -/
inductive RunRes where
  | halted (m : IntcodeMachine)
  | fault
  | outOfFuel
deriving DecidableEq

/-- Source: IntcodeMachine::run of problem-7, with a fuel bound. -/
def run : Nat → IntcodeMachine → RunRes
  | 0, _ => .outOfFuel
  | fuel + 1, m =>
    match execute_step m with
    | .ok m2 => run fuel m2
    | .halted m2 => .halted m2
    | .fault => .fault

/-- Source: generate_permutations of problem-7 (the Rosetta code
rotation scheme).  The mutable stack, queue and output vector are
threaded explicitly; the inner for-loop is the fold over
List.range queue.length; the fuel bound only guards the recursion
depth and is never reached by the call sites modelled here. -/
def generate_permutations :
    Nat → List Int → List Int → List (List Int) →
      Option (List Int × List Int × List (List Int))
  | 0, _, _, _ => none
  | fuel + 1, stack, queue, output =>
    if queue.isEmpty then
      some (stack, queue, output ++ [stack])
    else
      (List.range queue.length).foldl
        (fun acc _ =>
          acc.bind fun s =>
            match s.2.1 with
            | [] => none
            | q :: qs =>
              (generate_permutations fuel (s.1 ++ [q]) qs s.2.2).bind fun s2 =>
                match s2.1.getLast? with
                | none => none
                | some lastv =>
                  some (s2.1.dropLast, s2.2.1 ++ [lastv], s2.2.2))
        (some (stack, queue, output))

/-- The channel contents threaded through the sequential chain of
get_output: the accumulator starts as the externally seeded queue and
after each stage becomes the full output stream of that stage, which
is the next stage input.  A stage that faults or does not finish
poisons the whole chain (the Rust code panics or hangs there). -/
def chain_channels (fuel : Nat) (program : List Int)
    (phase_settings : List Int) (q0 : List Int) : Option (List Int) :=
  phase_settings.foldl
    (fun acc signal =>
      acc.bind fun q =>
        match run fuel (IntcodeMachine.new program signal q) with
        | .halted mach => some mach.output
        | _ => none)
    (some q0)

/-- Source: get_output of problem-7: the initial channel holds the
single seed value 0, the stages run sequentially to completion, and
the final recv pulls the first value of the final channel. -/
def get_output (fuel : Nat) (program : List Int) (phase_settings : List Int) :
    Option Int :=
  (chain_channels fuel program phase_settings [0]).bind List.head?

/-- get_output generalized over the externally injected seed value
(the source hardcodes the seed 0; get_output equals this definition at
seed 0 definitionally). -/
def get_output_seeded (fuel : Nat) (program : List Int) (seed : Int)
    (phase_settings : List Int) : Option Int :=
  (chain_channels fuel program phase_settings [seed]).bind List.head?

/-- Model of Rust collecting an iterator of possibly-panicking results:
all values must be produced for the surrounding computation to
survive. -/
def optAll : List (Option Int) → Option (List Int)
  | [] => some []
  | none :: _ => none
  | some v :: rest => (optAll rest).map fun l => v :: l

/-- Model of `.map(get_output).max().unwrap()` over a list of
permutations: a panic in any branch kills the whole computation,
otherwise the maximum of all values is returned. -/
def chainMax (l : List (Option Int)) : Option Int :=
  (optAll l).bind List.max?

/-- The permutation list built by solve_1:
generate_permutations on the empty stack and the queue 0..=4. -/
def perms5 : List (List Int) :=
  ((generate_permutations 50 [] [0, 1, 2, 3, 4] []).map fun s => s.2.2).getD []

/-- Source: solve_1 of problem-7: maximum of get_output over every
generated permutation of the phase settings 0..=4. -/
def solve_1 (fuel : Nat) (program : List Int) : Option Int :=
  (generate_permutations 50 [] [0, 1, 2, 3, 4] []).bind fun s =>
    chainMax (s.2.2.map (get_output fuel program))

end P7

namespace P11

/-- Source: enum Direction of problem-11. -/
inductive Direction where
  | up
  | down
  | left
  | right
deriving DecidableEq

/-- Source: Direction::next: command 0 turns left, any other command
turns right. -/
def Direction.next (d : Direction) (command : Int) : Direction :=
  if command = 0 then
    match d with
    | .up => .left
    | .down => .right
    | .left => .down
    | .right => .up
  else
    match d with
    | .up => .right
    | .down => .left
    | .left => .up
    | .right => .down

/-- Source: struct IntcodeMachine of problem-11.  The HashSet of
painted positions is modelled as a duplicate-free list; the 1000 by
1000 panel matrix is modelled as a total function on the two indices
(all executions considered stay inside the allocated bounds). -/
structure IntcodeMachine where
  memory : List Int
  cmd_ptr : Nat
  rel_base : Int
  input_signal : Int
  output : List (Int × Int)
  position : Int × Int
  direction : Direction
  should_paint : Bool
  panels : Nat → Nat → Int

/-- Source: IntcodeMachine::new of problem-11: the panel matrix is all
zero except entry (500, 500), pre-seeded to 1 regardless of the other
arguments; the robot starts at the origin facing up, expecting a paint
command. -/
def IntcodeMachine.new (program : List Int) (input_signal : Int)
    (output : List (Int × Int)) : IntcodeMachine :=
  { memory := program
    cmd_ptr := 0
    rel_base := 0
    input_signal := input_signal
    output := output
    position := (0, 0)
    direction := .up
    should_paint := true
    panels := fun x y => if x = 500 ∧ y = 500 then 1 else 0 }

/-- Step result for the problem-11 machine. -/
inductive StepRes where
  | ok (m : IntcodeMachine)
  | halted (m : IntcodeMachine)
  | fault

/-- Source: IntcodeMachine::decode_instruction of problem-11
(identical to problem-9). -/
def decode_instruction (m : IntcodeMachine) :
    Option (Nat × List P9.Mode × IntcodeMachine) :=
  match m.memory.get? m.cmd_ptr with
  | none => none
  | some w =>
    match P9.Mode.from_code (usizeOf w / 10 ^ 2 % 10),
        P9.Mode.from_code (usizeOf w / 10 ^ 3 % 10),
        P9.Mode.from_code (usizeOf w / 10 ^ 4 % 10) with
    | some a, some b, some c =>
      some (usizeOf w % 100, [a, b, c], { m with cmd_ptr := m.cmd_ptr + 1 })
    | _, _, _ => none

/-- Source: get_current_memory_slice of problem-11 (same opcode table
as problem-9). -/
def get_current_memory_slice (m : IntcodeMachine) (opcode : Nat) :
    Option (List Int) :=
  match P9.arg_count opcode with
  | none => none
  | some n =>
    if m.cmd_ptr + n ≤ m.memory.length then
      some ((m.memory.drop m.cmd_ptr).take n)
    else
      none

/-- Parameter resolution of problem-11 (same three modes as
problem-9). -/
def resolve (m : IntcodeMachine) (i : Nat) (raw : Int) : P9.Mode → Nat
  | .position => usizeOf raw
  | .value => m.cmd_ptr + i
  | .relative => usizeOf (m.rel_base + raw)

/-- Source: IntcodeMachine::build_args of problem-11. -/
def build_args (m : IntcodeMachine) (raw_args : List Int)
    (modes : List P9.Mode) : List Nat :=
  ((raw_args.zip modes).enum).map fun p => resolve m p.1 p.2.1 p.2.2

/-- Read of memory[a]; out of bounds panics (none). -/
def memRead (m : IntcodeMachine) (a : Nat) : Option Int :=
  m.memory.get? a

/-- Write of memory[a]; out of bounds panics (none). -/
def memWrite (m : IntcodeMachine) (a : Nat) (v : Int) : Option IntcodeMachine :=
  if a < m.memory.length then some { m with memory := m.memory.set a v }
  else none

/-- Source: IntcodeMachine::add of problem-11. -/
def add (m : IntcodeMachine) : List Nat → StepRes
  | [a, b, o] =>
    match memRead m a, memRead m b with
    | some x, some y =>
      match memWrite m o (x + y) with
      | some m2 => .ok { m2 with cmd_ptr := m2.cmd_ptr + 3 }
      | none => .fault
    | _, _ => .fault
  | _ => .halted m

/-- Source: IntcodeMachine::mul of problem-11. -/
def mul (m : IntcodeMachine) : List Nat → StepRes
  | [a, b, o] =>
    match memRead m a, memRead m b with
    | some x, some y =>
      match memWrite m o (x * y) with
      | some m2 => .ok { m2 with cmd_ptr := m2.cmd_ptr + 3 }
      | none => .fault
    | _, _ => .fault
  | _ => .halted m

/-- Source: IntcodeMachine::store of problem-11: unlike the channel
variants, it always stores the current value of the input_signal
field. -/
def store (m : IntcodeMachine) : List Nat → StepRes
  | [dst] =>
    match memWrite m dst m.input_signal with
    | some m2 => .ok { m2 with cmd_ptr := m2.cmd_ptr + 1 }
    | none => .fault
  | _ => .halted m

/-- One cell forward in the given heading (source: the match on the
new direction inside push_output). -/
def moveForward (p : Int × Int) : Direction → Int × Int
  | .up => (p.1, p.2 + 1)
  | .down => (p.1, p.2 - 1)
  | .right => (p.1 + 1, p.2)
  | .left => (p.1 - 1, p.2)

/-- Source: IntcodeMachine::push_output of problem-11: in the paint
phase the emitted value is written to the grid at the current
position, the position is recorded in the painted set and echoed back
as the next input; in the turn phase the heading is rotated, the robot
moves one cell, and the next input becomes the grid value at the new
position.  The expecting-paint flag toggles every output. -/
def push_output (m : IntcodeMachine) : List Nat → StepRes
  | [src] =>
    match memRead m src with
    | some v =>
      if m.should_paint then
        let out2 := if m.position ∈ m.output then m.output else m.output ++ [m.position]
        let px := usizeOf (m.position.1 + 500)
        let py := usizeOf (m.position.2 + 500)
        .ok { m with
          output := out2
          panels := fun a b => if a = px ∧ b = py then v else m.panels a b
          input_signal := v
          should_paint := false
          cmd_ptr := m.cmd_ptr + 1 }
      else
        let d2 := m.direction.next v
        let p2 := moveForward m.position d2
        .ok { m with
          direction := d2
          position := p2
          input_signal := m.panels (usizeOf (p2.1 + 500)) (usizeOf (p2.2 + 500))
          should_paint := true
          cmd_ptr := m.cmd_ptr + 1 }
    | none => .fault
  | _ => .halted m

/-- Source: IntcodeMachine::jump_if_true of problem-11. -/
def jump_if_true (m : IntcodeMachine) : List Nat → StepRes
  | [c, t] =>
    match memRead m c with
    | some cv =>
      if cv ≠ 0 then
        match memRead m t with
        | some tv => .ok { m with cmd_ptr := usizeOf tv }
        | none => .fault
      else
        .ok { m with cmd_ptr := m.cmd_ptr + 2 }
    | none => .fault
  | _ => .halted m

/-- Source: IntcodeMachine::jump_if_false of problem-11. -/
def jump_if_false (m : IntcodeMachine) : List Nat → StepRes
  | [c, t] =>
    match memRead m c with
    | some cv =>
      if cv = 0 then
        match memRead m t with
        | some tv => .ok { m with cmd_ptr := usizeOf tv }
        | none => .fault
      else
        .ok { m with cmd_ptr := m.cmd_ptr + 2 }
    | none => .fault
  | _ => .halted m

/-- Source: IntcodeMachine::less_than of problem-11. -/
def less_than (m : IntcodeMachine) : List Nat → StepRes
  | [a, b, o] =>
    match memRead m a, memRead m b with
    | some x, some y =>
      match memWrite m o (if x < y then 1 else 0) with
      | some m2 => .ok { m2 with cmd_ptr := m2.cmd_ptr + 3 }
      | none => .fault
    | _, _ => .fault
  | _ => .halted m

/-- Source: IntcodeMachine::equals of problem-11. -/
def equals (m : IntcodeMachine) : List Nat → StepRes
  | [a, b, o] =>
    match memRead m a, memRead m b with
    | some x, some y =>
      match memWrite m o (if x = y then 1 else 0) with
      | some m2 => .ok { m2 with cmd_ptr := m2.cmd_ptr + 3 }
      | none => .fault
    | _, _ => .fault
  | _ => .halted m

/-- Source: IntcodeMachine::mutate_rel_base of problem-11. -/
def mutate_rel_base (m : IntcodeMachine) : List Nat → StepRes
  | [d] =>
    match memRead m d with
    | some delta => .ok { m with rel_base := m.rel_base + delta, cmd_ptr := m.cmd_ptr + 1 }
    | none => .fault
  | _ => .halted m

/-- Source: IntcodeMachine::halt of problem-11. -/
def halt (m : IntcodeMachine) : List Nat → StepRes :=
  fun _ => .halted m

/-- Source: the dispatch match inside get_command of problem-11. -/
def get_command (opcode : Nat) :
    Option (IntcodeMachine → List Nat → StepRes) :=
  match opcode with
  | 1 => some add
  | 2 => some mul
  | 3 => some store
  | 4 => some push_output
  | 5 => some jump_if_true
  | 6 => some jump_if_false
  | 7 => some less_than
  | 8 => some equals
  | 9 => some mutate_rel_base
  | 99 => some halt
  | _ => none

/-- Source: IntcodeMachine::execute_step of problem-11. -/
def execute_step (m : IntcodeMachine) : StepRes :=
  match decode_instruction m with
  | none => .fault
  | some (opcode, modes, m1) =>
    match get_current_memory_slice m1 opcode with
    | none => .fault
    | some slice =>
      match get_command opcode with
      | none => .fault
      | some cmd => cmd m1 (build_args m1 slice modes)

/-- Result of running the problem-11 machine to completion. -/
inductive RunRes where
  | halted (m : IntcodeMachine)
  | fault
  | outOfFuel

/-- Source: IntcodeMachine::run of problem-11, with a fuel bound. -/
def run : Nat → IntcodeMachine → RunRes
  | 0, _ => .outOfFuel
  | fuel + 1, m =>
    match execute_step m with
    | .ok m2 => run fuel m2
    | .halted m2 => .halted m2
    | .fault => .fault

/-- The machine constructed by solve_1 of problem-11: the program
padded with 1000 zero cells, initial input value 0, empty painted
set. -/
def solve_1_machine (program : List Int) : IntcodeMachine :=
  IntcodeMachine.new (program ++ List.replicate 1000 0) 0 []

/-- Source: solve_1 of problem-11: run the machine built by
solve_1_machine to completion and report the painted set. -/
def solve_1 (fuel : Nat) (program : List Int) : Option (List (Int × Int)) :=
  match run fuel (solve_1_machine program) with
  | .halted m => some m.output
  | _ => none

end P11

/-- The self-replicating program of the copy_itself test in
problem-9. -/
def copy_itself_program : List Int :=
  [109, 1, 204, -1, 1001, 100, 1, 100, 1008, 100, 16, 101, 1006, 101, 0, 99]

/-- Source: the copy_itself test of problem-9: the program padded with
100 zero cells, phase setting 1, one queued input value 1; run to
completion and collect the whole output stream. -/
def copy_itself (fuel : Nat) : Option (List Int) :=
  match P9.run fuel
      (P9.IntcodeMachine.new (copy_itself_program ++ List.replicate 100 0) 1 [1]) with
  | .halted m => some m.output
  | _ => none

/-! ## Helper lemmas about the problem-9 machine -/

set_option linter.unreachableTactic false
set_option linter.unusedTactic false

namespace P9

theorem memWrite_fields {m : IntcodeMachine} {a : Nat} {v : Int} {m2 : IntcodeMachine}
    (h : memWrite m a v = some m2) :
    m2 = { m with memory := m.memory.set a v } := by
  unfold memWrite at h
  split at h
  · injection h with h
    exact h.symm
  · cases h

theorem decode_fields {m : IntcodeMachine} {op : Nat} {modes : List Mode}
    {m1 : IntcodeMachine} (h : decode_instruction m = some (op, modes, m1)) :
    m1 = { m with cmd_ptr := m.cmd_ptr + 1 } := by
  unfold decode_instruction at h
  repeat' split at h
  any_goals cases h
  rfl

theorem add_phase {m : IntcodeMachine} {args : List Nat} {m2 : IntcodeMachine}
    (h : add m args = .ok m2) : m2.phase_setting = m.phase_setting := by
  unfold add at h
  repeat' split at h
  any_goals cases h
  all_goals first
    | rfl
    | simp [memWrite_fields (by assumption)]

theorem mul_phase {m : IntcodeMachine} {args : List Nat} {m2 : IntcodeMachine}
    (h : mul m args = .ok m2) : m2.phase_setting = m.phase_setting := by
  unfold mul at h
  repeat' split at h
  any_goals cases h
  all_goals first
    | rfl
    | simp [memWrite_fields (by assumption)]

theorem push_output_phase {m : IntcodeMachine} {args : List Nat} {m2 : IntcodeMachine}
    (h : push_output m args = .ok m2) : m2.phase_setting = m.phase_setting := by
  unfold push_output at h
  repeat' split at h
  any_goals cases h
  all_goals first
    | rfl
    | simp [memWrite_fields (by assumption)]

theorem jump_if_true_phase {m : IntcodeMachine} {args : List Nat} {m2 : IntcodeMachine}
    (h : jump_if_true m args = .ok m2) : m2.phase_setting = m.phase_setting := by
  unfold jump_if_true at h
  repeat' split at h
  any_goals cases h
  all_goals first
    | rfl
    | simp [memWrite_fields (by assumption)]

theorem jump_if_false_phase {m : IntcodeMachine} {args : List Nat} {m2 : IntcodeMachine}
    (h : jump_if_false m args = .ok m2) : m2.phase_setting = m.phase_setting := by
  unfold jump_if_false at h
  repeat' split at h
  any_goals cases h
  all_goals first
    | rfl
    | simp [memWrite_fields (by assumption)]

theorem less_than_phase {m : IntcodeMachine} {args : List Nat} {m2 : IntcodeMachine}
    (h : less_than m args = .ok m2) : m2.phase_setting = m.phase_setting := by
  unfold less_than at h
  repeat' split at h
  any_goals cases h
  all_goals first
    | rfl
    | simp [memWrite_fields (by assumption)]

theorem equals_phase {m : IntcodeMachine} {args : List Nat} {m2 : IntcodeMachine}
    (h : equals m args = .ok m2) : m2.phase_setting = m.phase_setting := by
  unfold equals at h
  repeat' split at h
  any_goals cases h
  all_goals first
    | rfl
    | simp [memWrite_fields (by assumption)]

theorem mutate_rel_base_phase {m : IntcodeMachine} {args : List Nat} {m2 : IntcodeMachine}
    (h : mutate_rel_base m args = .ok m2) : m2.phase_setting = m.phase_setting := by
  unfold mutate_rel_base at h
  repeat' split at h
  any_goals cases h
  all_goals first
    | rfl
    | simp [memWrite_fields (by assumption)]

theorem halt_not_ok {m : IntcodeMachine} {args : List Nat} {m2 : IntcodeMachine}
    (h : halt m args = .ok m2) : False := by
  unfold halt at h
  cases h

theorem store_phase_none {m : IntcodeMachine} {args : List Nat} {m2 : IntcodeMachine}
    (h : store m args = .ok m2) (hp : m.phase_setting = none) :
    m2.phase_setting = none := by
  unfold store at h
  rw [hp] at h
  repeat' split at h
  any_goals cases h
  all_goals first
    | rfl
    | simp [memWrite_fields (by assumption)]

theorem step_phase_none {m m2 : IntcodeMachine} (h : execute_step m = .ok m2)
    (hp : m.phase_setting = none) : m2.phase_setting = none := by
  unfold execute_step at h
  split at h
  · cases h
  next opcode modes m1 hdec =>
    have hm1 : m1.phase_setting = none := by
      rw [decode_fields hdec]
      exact hp
    split at h
    · cases h
    next slice hslice =>
      split at h
      · cases h
      next cmd hcmd =>
        unfold get_command at hcmd
        split at hcmd <;> cases hcmd
        all_goals first
          | exact store_phase_none h hm1
          | exact (add_phase h).trans hm1
          | exact (mul_phase h).trans hm1
          | exact (push_output_phase h).trans hm1
          | exact (jump_if_true_phase h).trans hm1
          | exact (jump_if_false_phase h).trans hm1
          | exact (less_than_phase h).trans hm1
          | exact (equals_phase h).trans hm1
          | exact (mutate_rel_base_phase h).trans hm1
          | exact absurd h (fun hh => halt_not_ok hh)

end P9

/-! ## Arithmetic helpers for the usize cast -/

theorem usizeOf_big {x : Int} (h1 : x < 0) (h2 : -(2 : Int) ^ 63 ≤ x) :
    2 ^ 63 ≤ usizeOf x := by
  unfold usizeOf
  have e : (2 : Int) ^ 64 = 18446744073709551616 := by norm_num
  have e2 : (2 : Nat) ^ 63 = 9223372036854775808 := by norm_num
  have e3 : -(2 : Int) ^ 63 = -9223372036854775808 := by norm_num
  rw [e, e2]
  rw [e3] at h2
  omega

theorem usizeOf_of_nonneg {x : Int} (h1 : 0 ≤ x) (h2 : x < (2 : Int) ^ 63) :
    usizeOf x = x.toNat := by
  unfold usizeOf
  have e : (2 : Int) ^ 64 = 18446744073709551616 := by norm_num
  have e3 : (2 : Int) ^ 63 = 9223372036854775808 := by norm_num
  rw [e]
  rw [e3] at h2
  omega

theorem P9.from_code_exists {d : Nat} (hd : d ≤ 2) :
    ∃ mo, P9.Mode.from_code d = some mo := by
  interval_cases d <;> exact ⟨_, rfl⟩

theorem P9.arg_count_le_three {op n : Nat} (h : P9.arg_count op = some n) :
    n ≤ 3 := by
  unfold P9.arg_count at h
  split at h <;> first
    | (injection h with h; omega)
    | cases h

theorem P9.build_args_length (m : P9.IntcodeMachine) (raw_args : List Int)
    (modes : List P9.Mode) :
    (P9.build_args m raw_args modes).length = min raw_args.length modes.length := by
  simp [P9.build_args]

/-! ## Helper lemmas for the problem-7 chain composer -/

theorem P7.chain_foldl_none (fuel : Nat) (program : List Int) :
    ∀ rest : List Int,
      rest.foldl
        (fun acc signal =>
          acc.bind fun q =>
            match P7.run fuel (P7.IntcodeMachine.new program signal q) with
            | .halted mach => some mach.output
            | _ => none)
        none = none := by
  intro rest
  induction rest with
  | nil => rfl
  | cons x xs ih =>
    rw [List.foldl_cons]
    exact ih

theorem P7.optAll_rel {l₁ l₂ : List (Option Int)} (h : l₁.Perm l₂) :
    (P7.optAll l₁ = none ∧ P7.optAll l₂ = none)
    ∨ ∃ v₁ v₂, P7.optAll l₁ = some v₁ ∧ P7.optAll l₂ = some v₂ ∧ v₁.Perm v₂ := by
  induction h with
  | nil => right; exact ⟨[], [], rfl, rfl, .nil⟩
  | cons x h ih =>
    cases x with
    | none => left; exact ⟨rfl, rfl⟩
    | some v =>
      rcases ih with ⟨h1, h2⟩ | ⟨v₁, v₂, h1, h2, hp⟩
      · left; constructor <;> simp [P7.optAll, h1, h2]
      · right
        exact ⟨v :: v₁, v :: v₂, by simp [P7.optAll, h1], by simp [P7.optAll, h2], hp.cons v⟩
  | swap x y l =>
    cases x with
    | none =>
      cases y with
      | none => left; exact ⟨rfl, rfl⟩
      | some vy => left; constructor <;> simp [P7.optAll]
    | some vx =>
      cases y with
      | none => left; constructor <;> simp [P7.optAll]
      | some vy =>
        cases hl : P7.optAll l with
        | none => left; constructor <;> simp [P7.optAll, hl]
        | some vs =>
          right
          exact ⟨vy :: vx :: vs, vx :: vy :: vs,
            by simp [P7.optAll, hl], by simp [P7.optAll, hl], .swap vx vy vs⟩
  | trans h1 h2 ih1 ih2 =>
    rcases ih1 with ⟨ha, hb⟩ | ⟨v₁, v₂, ha, hb, hp⟩
    · rcases ih2 with ⟨hc, hd⟩ | ⟨w₁, w₂, hc, hd, hq⟩
      · left; exact ⟨ha, hd⟩
      · rw [hb] at hc; cases hc
    · rcases ih2 with ⟨hc, hd⟩ | ⟨w₁, w₂, hc, hd, hq⟩
      · rw [hb] at hc; cases hc
      · right
        rw [hb] at hc
        injection hc with hc
        subst hc
        exact ⟨v₁, w₂, ha, hd, hp.trans hq⟩

theorem P7.listMax_perm {v₁ v₂ : List Int} (hp : v₁.Perm v₂) : v₁.max? = v₂.max? := by
  have anti : Std.Antisymm ((· : Int) ≤ ·) := ⟨fun h1 h2 => le_antisymm h1 h2⟩
  cases hm : v₁.max? with
  | none =>
    rw [List.max?_eq_none_iff] at hm
    subst hm
    exact (List.max?_eq_none_iff.mpr hp.symm.eq_nil).symm
  | some a =>
    rw [List.max?_eq_some_iff (fun a => le_refl a) (fun a b => max_choice a b)
      (fun a b c => max_le_iff)] at hm
    refine (List.max?_eq_some_iff (fun a => le_refl a) (fun a b => max_choice a b)
      (fun a b c => max_le_iff)).mpr ?_ |>.symm
    exact ⟨hp.mem_iff.mp hm.1, fun b hb => hm.2 b (hp.mem_iff.mpr hb)⟩

theorem P7.chainMax_perm {l₁ l₂ : List (Option Int)} (h : l₁.Perm l₂) :
    P7.chainMax l₁ = P7.chainMax l₂ := by
  rcases P7.optAll_rel h with ⟨h1, h2⟩ | ⟨v₁, v₂, h1, h2, hp⟩
  · simp [P7.chainMax, h1, h2]
  · simp [P7.chainMax, h1, h2, P7.listMax_perm hp]

set_option maxRecDepth 10000 in
theorem P7.perms5_props :
    P7.perms5.Nodup ∧ P7.perms5.length = 120
    ∧ (∀ p ∈ P7.perms5, p.Perm [0, 1, 2, 3, 4]) := by
  refine ⟨by decide, by decide, by decide⟩

theorem P7.perms5_complete :
    ∀ p : List Int, p.Perm [0, 1, 2, 3, 4] → p ∈ P7.perms5 := by
  intro p hp
  have hbase : ([0, 1, 2, 3, 4] : List Int).Nodup := by decide
  have hTn : (([0, 1, 2, 3, 4] : List Int).permutations).Nodup :=
    List.nodup_permutations _ hbase
  have hTl : (([0, 1, 2, 3, 4] : List Int).permutations).length = 120 := by
    rw [List.length_permutations]
    decide
  have hsub : P7.perms5.toFinset ⊆ (([0, 1, 2, 3, 4] : List Int).permutations).toFinset := by
    intro q hq
    rw [List.mem_toFinset] at hq ⊢
    exact List.mem_permutations.mpr (P7.perms5_props.2.2 q hq)
  have hc1 : P7.perms5.toFinset.card = 120 := by
    rw [List.toFinset_card_of_nodup P7.perms5_props.1, P7.perms5_props.2.1]
  have hc2 : (([0, 1, 2, 3, 4] : List Int).permutations).toFinset.card = 120 := by
    rw [List.toFinset_card_of_nodup hTn, hTl]
  have heq := Finset.eq_of_subset_of_card_le hsub (by rw [hc1, hc2])
  have hmem : p ∈ (([0, 1, 2, 3, 4] : List Int).permutations).toFinset :=
    List.mem_toFinset.mpr (List.mem_permutations.mpr hp)
  rw [← heq] at hmem
  exact List.mem_toFinset.mp hmem

/-! ## Claim theorems -/

/-- Claim C1, counterexample: for the single-stage chain running the
program 104,7,104,8,99 (which emits 7 then 8 and halts), the final
channel holds the outputs 7 and 8 in order, yet get_output returns 7,
the first output of the final stage, not the last output 8 as the
claim states: the final recv pulls the front of the channel queue. -/
theorem chain_returns_first_not_last_cex :
    P7.chain_channels 10 [104, 7, 104, 8, 99] [5] [0] = some [7, 8]
    ∧ P7.get_output 10 [104, 7, 104, 8, 99] [5] = some 7
    ∧ P7.get_output 10 [104, 7, 104, 8, 99] [5]
        ≠ (P7.chain_channels 10 [104, 7, 104, 8, 99] [5] [0]).bind List.getLast? := by
  refine ⟨by decide, by decide, by decide⟩

/-- Claim C1, amended: in chain topology the composer runs the stages
sequentially to completion, each stage consuming the channel produced
by the previous stage, with stage 0 fed the single seed value 0; the
value returned is the FIRST output emitted by the final stage (equal
to the last output exactly when the final stage emits one value). -/
theorem chain_sequential_first_output (fuel : Nat) (program : List Int)
    (phase_settings : List Int) :
    P7.get_output fuel program phase_settings
      = (P7.chain_channels fuel program phase_settings [0]).bind List.head?
    ∧ (∀ s rest q, P7.chain_channels fuel program (s :: rest) q
        = match P7.run fuel (P7.IntcodeMachine.new program s q) with
          | .halted mach => P7.chain_channels fuel program rest mach.output
          | _ => none)
    ∧ P7.chain_channels fuel program [] [0] = some [0] := by
  refine ⟨rfl, ?_, rfl⟩
  intro s rest q
  unfold P7.chain_channels
  rw [List.foldl_cons]
  cases hr : P7.run fuel (P7.IntcodeMachine.new program s q) with
  | halted mach =>
    simp only [Option.some_bind, hr]
  | fault =>
    simp only [Option.some_bind, hr]
    exact P7.chain_foldl_none fuel program rest
  | outOfFuel =>
    simp only [Option.some_bind, hr]
    exact P7.chain_foldl_none fuel program rest

set_option maxRecDepth 10000 in
/-- Claim C2: running the engine on the 16-word self-replicating
program padded with zero-filled scratch cells produces an output
stream equal, element for element and in order, to the original
16-word program. -/
theorem quine_outputs_itself : copy_itself 200 = some copy_itself_program := by
  decide

/-- Claim C3, counterexample: the claim fails as stated, in two ways.
The word 30103 has opcode 3 (one declared parameter, whose mode digit
1 is valid), yet the decoder panics, because it eagerly validates all
three mode digits and the unused digit at decimal position 4 is 3.
The negative word -551517 decodes (through the wrapping usize cast)
to opcode 99 with all-position modes, although the claim prescribes
opcode word mod 100 = 83. -/
theorem decoder_eager_digits_cex :
    P9.decode_instruction ⟨[30103, 0], 0, 0, none, [], []⟩ = none
    ∧ usizeOf 30103 % 100 = 3
    ∧ P9.arg_count 3 = some 1
    ∧ usizeOf 30103 / 10 ^ 2 % 10 = 1
    ∧ P9.decode_instruction ⟨[-551517, 0], 0, 0, none, [], []⟩
        = some (99, [P9.Mode.position, P9.Mode.position, P9.Mode.position],
            ⟨[-551517, 0], 1, 0, none, [], []⟩)
    ∧ (-551517 : Int) % 100 = 83
    ∧ (99 : Nat) ≠ 83 := by
  refine ⟨by decide, by decide, by decide, by decide, by decide, by decide, by decide⟩

/-- Claim C3, amended: for every nonnegative instruction word within
the isize range whose three mode digits (decimal positions 2 to 4) are
each at most 2, the decoder returns opcode = word mod 100 together
with the three decoded mode digits, advancing the instruction pointer
by exactly one; the modes are paired positionally with the raw
parameters by the zip inside build_args, so the effective mode list
has exactly the declared parameter count (at most 3) and the mode of
parameter i is the decimal digit at position i + 2 of the word.  Words
with a mode digit above 2 fault instead, even when the offending digit
lies beyond the declared parameter count, and negative words are first
wrapped by the usize cast (see the counterexample). -/
theorem decoder_contract_valid_words (m : P9.IntcodeMachine) (w : Int)
    (hw : m.memory.get? m.cmd_ptr = some w)
    (h0 : 0 ≤ w) (hmax : w < (2 : Int) ^ 63)
    (h2 : w.toNat / 10 ^ 2 % 10 ≤ 2) (h3 : w.toNat / 10 ^ 3 % 10 ≤ 2)
    (h4 : w.toNat / 10 ^ 4 % 10 ≤ 2) :
    ∃ a b c, P9.Mode.from_code (w.toNat / 10 ^ 2 % 10) = some a
      ∧ P9.Mode.from_code (w.toNat / 10 ^ 3 % 10) = some b
      ∧ P9.Mode.from_code (w.toNat / 10 ^ 4 % 10) = some c
      ∧ P9.decode_instruction m
          = some (w.toNat % 100, [a, b, c], { m with cmd_ptr := m.cmd_ptr + 1 })
      ∧ ((w.toNat % 100 : Int) = w % 100)
      ∧ (∀ n, P9.arg_count (w.toNat % 100) = some n → n ≤ 3)
      ∧ (∀ slice n, P9.arg_count (w.toNat % 100) = some n → slice.length = n →
          (P9.build_args { m with cmd_ptr := m.cmd_ptr + 1 } slice [a, b, c]).length = n)
      ∧ (∀ x, P9.build_args { m with cmd_ptr := m.cmd_ptr + 1 } [x] [a, b, c]
          = [P9.resolve { m with cmd_ptr := m.cmd_ptr + 1 } 0 x a])
      ∧ (∀ x y, P9.build_args { m with cmd_ptr := m.cmd_ptr + 1 } [x, y] [a, b, c]
          = [P9.resolve { m with cmd_ptr := m.cmd_ptr + 1 } 0 x a,
             P9.resolve { m with cmd_ptr := m.cmd_ptr + 1 } 1 y b])
      ∧ (∀ x y z, P9.build_args { m with cmd_ptr := m.cmd_ptr + 1 } [x, y, z] [a, b, c]
          = [P9.resolve { m with cmd_ptr := m.cmd_ptr + 1 } 0 x a,
             P9.resolve { m with cmd_ptr := m.cmd_ptr + 1 } 1 y b,
             P9.resolve { m with cmd_ptr := m.cmd_ptr + 1 } 2 z c]) := by
  have husize : usizeOf w = w.toNat := usizeOf_of_nonneg h0 hmax
  obtain ⟨a, ha⟩ := P9.from_code_exists h2
  obtain ⟨b, hb⟩ := P9.from_code_exists h3
  obtain ⟨c, hc⟩ := P9.from_code_exists h4
  refine ⟨a, b, c, ha, hb, hc, ?_, by omega, fun n hn => P9.arg_count_le_three hn,
    ?_, fun x => rfl, fun x y => rfl, fun x y z => rfl⟩
  · simp only [P9.decode_instruction, hw, husize, ha, hb, hc]
  · intro slice n hn hlen
    have h3n := P9.arg_count_le_three hn
    rw [P9.build_args_length]
    simp only [List.length_cons, List.length_nil]
    omega

/-- Claim C3, witness for the amended theorem: the word 1002 (opcode
2, mode digits 0, 1, 0) decodes to mul with modes position, value,
position and the pointer advanced by one. -/
theorem decoder_contract_valid_words_witness :
    (0 : Int) ≤ 1002 ∧
    P9.decode_instruction ⟨[1002, 4, 5, 6], 0, 0, none, [], []⟩
      = some (2, [P9.Mode.position, P9.Mode.value, P9.Mode.position],
          ⟨[1002, 4, 5, 6], 1, 0, none, [], []⟩) := by
  refine ⟨by decide, ?_⟩
  obtain ⟨a, b, c, ha, hb, hc, hdec, -⟩ :=
    decoder_contract_valid_words ⟨[1002, 4, 5, 6], 0, 0, none, [], []⟩ 1002
      rfl (by decide) (by decide) (by decide) (by decide) (by decide)
  have ha2 : a = P9.Mode.position := by
    rw [show P9.Mode.from_code ((1002 : Int).toNat / 10 ^ 2 % 10)
        = some P9.Mode.position from rfl] at ha
    injection ha with ha
    exact ha.symm
  have hb2 : b = P9.Mode.value := by
    rw [show P9.Mode.from_code ((1002 : Int).toNat / 10 ^ 3 % 10)
        = some P9.Mode.value from rfl] at hb
    injection hb with hb
    exact hb.symm
  have hc2 : c = P9.Mode.position := by
    rw [show P9.Mode.from_code ((1002 : Int).toNat / 10 ^ 4 % 10)
        = some P9.Mode.position from rfl] at hc
    injection hc with hc
    exact hc.symm
  rw [ha2, hb2, hc2] at hdec
  exact hdec

/-- Claim C4: the engine constructor stores the phase setting as a
one-shot value; the first executed input instruction writes the phase
setting to its destination and clears it, every input instruction
executed with the phase setting already consumed pulls the next value
from the input port instead, and no step can ever restore a consumed
phase setting.  Stated for the problem-9 machine and for the store
handler of the problem-7 machine cited by the claim. -/
theorem phase_setting_consumed_first (prog : List Int) (p v : Int)
    (inp rest : List Int) (m : P9.IntcodeMachine) (dst : Nat)
    (hdst : dst < m.memory.length)
    (m7 : P7.IntcodeMachine) (dst7 : Nat) (hdst7 : dst7 < m7.memory.length) :
    (P9.IntcodeMachine.new prog p inp).phase_setting = some p
    ∧ (m.phase_setting = some p →
        P9.store m [dst] = .ok { m with
          memory := m.memory.set dst p
          phase_setting := none
          cmd_ptr := m.cmd_ptr + 1 })
    ∧ (m.phase_setting = none → m.input_signal = v :: rest →
        P9.store m [dst] = .ok { m with
          memory := m.memory.set dst v
          input_signal := rest
          cmd_ptr := m.cmd_ptr + 1 })
    ∧ (∀ m2, P9.execute_step m = .ok m2 → m.phase_setting = none →
        m2.phase_setting = none)
    ∧ (P7.IntcodeMachine.new prog p inp).phase_setting = some p
    ∧ (m7.phase_setting = some p →
        P7.store m7 [dst7] = .ok { m7 with
          memory := m7.memory.set dst7 p
          phase_setting := none
          cmd_ptr := m7.cmd_ptr + 1 })
    ∧ (m7.phase_setting = none → m7.input_signal = v :: rest →
        P7.store m7 [dst7] = .ok { m7 with
          memory := m7.memory.set dst7 v
          input_signal := rest
          cmd_ptr := m7.cmd_ptr + 1 }) := by
  refine ⟨rfl, ?_, ?_, fun m2 h hp => P9.step_phase_none h hp, rfl, ?_, ?_⟩
  · intro hp
    unfold P9.store
    rw [hp]
    unfold P9.memWrite
    dsimp only
    rw [if_pos hdst]
  · intro hp hi
    unfold P9.store
    rw [hp, hi]
    unfold P9.memWrite
    dsimp only
    rw [if_pos hdst]
  · intro hp
    unfold P7.store
    rw [hp]
    unfold P7.memWrite
    dsimp only
    rw [if_pos hdst7]
  · intro hp hi
    unfold P7.store
    rw [hp, hi]
    unfold P7.memWrite
    dsimp only
    rw [if_pos hdst7]

/-- Claim C4, witness: on a machine holding phase setting 7 with input
queue [5], the input instruction writes 7 (not 5) to address 1 and
clears the phase setting, leaving the queue untouched. -/
theorem phase_setting_consumed_first_witness :
    P9.store ⟨[3, 0, 99], 0, 0, some 7, [5], []⟩ [1]
      = .ok ⟨[3, 7, 99], 1, 0, none, [5], []⟩ :=
  (phase_setting_consumed_first [3, 0, 99] 7 5 [5] []
    ⟨[3, 0, 99], 0, 0, some 7, [5], []⟩ 1 (by decide)
    ⟨[3, 0, 99], 0, some 7, [5], []⟩ 1 (by decide)).2.1 rfl

/-- Claim C5: executing an adjust-base instruction whose delta operand
reads k adds k to the relative base and advances the pointer by one;
afterwards a relative-mode parameter with raw value d resolves to the
same concrete address as a position-mode parameter with raw value
(previous relative base) + k + d, so a subsequent read accesses the
identical memory cell. -/
theorem adjust_base_relative_addressing (m : P9.IntcodeMachine) (k d : Int)
    (dp i : Nat) (hk : P9.memRead m dp = some k) :
    P9.mutate_rel_base m [dp]
      = .ok { m with rel_base := m.rel_base + k, cmd_ptr := m.cmd_ptr + 1 }
    ∧ ∀ m2 : P9.IntcodeMachine, m2.rel_base = m.rel_base + k →
        (P9.resolve m2 i d .relative = P9.resolve m2 i (m.rel_base + k + d) .position
         ∧ P9.memRead m2 (P9.resolve m2 i d .relative)
             = P9.memRead m2 (P9.resolve m2 i (m.rel_base + k + d) .position)) := by
  constructor
  · simp only [P9.mutate_rel_base, hk]
  · intro m2 h2
    have hres : P9.resolve m2 i d .relative
        = P9.resolve m2 i (m.rel_base + k + d) .position := by
      simp [P9.resolve, h2]
    exact ⟨hres, by rw [hres]⟩

/-- Claim C5, witness: on a machine with relative base 10, the
adjust-base instruction reading delta 2 yields base 12, and then
relative offset 3 resolves like position-mode raw value 15. -/
theorem adjust_base_relative_addressing_witness :
    P9.mutate_rel_base ⟨[9, 2, 99], 0, 10, none, [], []⟩ [1]
      = .ok ⟨[9, 2, 99], 1, 12, none, [], []⟩
    ∧ P9.resolve ⟨[9, 2, 99], 1, 12, none, [], []⟩ 0 3 .relative
        = P9.resolve ⟨[9, 2, 99], 1, 12, none, [], []⟩ 0 (10 + 2 + 3) .position := by
  have h := adjust_base_relative_addressing ⟨[9, 2, 99], 0, 10, none, [], []⟩ 2 3 1 0 rfl
  exact ⟨h.1, (h.2 ⟨[9, 2, 99], 1, 12, none, [], []⟩ rfl).1⟩

/-- Claim C6: a negative mathematically-resolved address (negative raw
value in position mode, or negative relative base plus offset) wraps
through the usize cast to an address of at least 2^63, beyond any
representable memory, so the ensuing read or write faults and no
instruction ever completes an access through such an address; shown
for reads, for writes, and end to end for the add handler writing
through such an address. -/
theorem negative_resolved_address_faults (m : P9.IntcodeMachine) (i : Nat)
    (raw : Int) (hlen : m.memory.length ≤ 2 ^ 63) :
    (raw < 0 → -(2 : Int) ^ 63 ≤ raw →
      P9.memRead m (P9.resolve m i raw .position) = none
      ∧ (∀ v, P9.memWrite m (P9.resolve m i raw .position) v = none)
      ∧ (∀ a b, P9.add m [a, b, P9.resolve m i raw .position] = .fault))
    ∧ (m.rel_base + raw < 0 → -(2 : Int) ^ 63 ≤ m.rel_base + raw →
      P9.memRead m (P9.resolve m i raw .relative) = none
      ∧ (∀ v, P9.memWrite m (P9.resolve m i raw .relative) v = none)) := by
  constructor
  · intro h1 h2
    have hbig : 2 ^ 63 ≤ P9.resolve m i raw .position := usizeOf_big h1 h2
    have hge : m.memory.length ≤ P9.resolve m i raw .position := le_trans hlen hbig
    have hread : P9.memRead m (P9.resolve m i raw .position) = none :=
      List.get?_eq_none.mpr hge
    have hwrite : ∀ v, P9.memWrite m (P9.resolve m i raw .position) v = none := by
      intro v
      unfold P9.memWrite
      rw [if_neg (by omega)]
    refine ⟨hread, hwrite, ?_⟩
    intro a b
    unfold P9.add
    rcases hra : P9.memRead m a with _ | x
    · simp [hra]
    rcases hrb : P9.memRead m b with _ | y
    · simp [hra, hrb]
    simp [hra, hrb, hwrite]
  · intro h1 h2
    have hbig : 2 ^ 63 ≤ P9.resolve m i raw .relative := usizeOf_big h1 h2
    have hge : m.memory.length ≤ P9.resolve m i raw .relative := le_trans hlen hbig
    refine ⟨List.get?_eq_none.mpr hge, ?_⟩
    intro v
    unfold P9.memWrite
    rw [if_neg (by omega)]

/-- Claim C6, witness: position-mode raw value -1 resolves past the
end of a one-cell memory and the read faults. -/
theorem negative_resolved_address_faults_witness :
    P9.memRead ⟨[99], 0, 0, none, [], []⟩
      (P9.resolve ⟨[99], 0, 0, none, [], []⟩ 0 (-1) .position) = none :=
  ((negative_resolved_address_faults ⟨[99], 0, 0, none, [], []⟩ 0 (-1)
    (by decide)).1 (by decide) (by decide)).1

set_option maxRecDepth 10000 in
/-- Claim C7: solve_1 equals the maximum of get_output over the
generated permutation list; that list is exactly the 120 permutations
of the phase settings 0..4 (duplicate-free, complete), and the
maximum is invariant under any reordering of the enumeration, for
every seed value of the generalized chain (get_output is the seed-0
instance), so the result depends only on the program and the seed. -/
theorem chain_max_over_permutations (fuel : Nat) (prog : List Int) (seed : Int)
    (L : List (List Int)) (hL : L.Perm P7.perms5) :
    P7.chainMax (L.map (P7.get_output_seeded fuel prog seed))
      = P7.chainMax (P7.perms5.map (P7.get_output_seeded fuel prog seed))
    ∧ P7.solve_1 fuel prog = P7.chainMax (P7.perms5.map (P7.get_output fuel prog))
    ∧ (∀ ph, P7.get_output fuel prog ph = P7.get_output_seeded fuel prog 0 ph)
    ∧ P7.perms5.Nodup ∧ P7.perms5.length = 120
    ∧ (∀ p, p ∈ P7.perms5 ↔ p.Perm [0, 1, 2, 3, 4]) := by
  refine ⟨P7.chainMax_perm (hL.map _), ?_, fun ph => rfl, P7.perms5_props.1,
    P7.perms5_props.2.1, fun p => ⟨P7.perms5_props.2.2 p, P7.perms5_complete p⟩⟩
  have hgp : P7.generate_permutations 50 [] [0, 1, 2, 3, 4] []
      = some ([], [0, 1, 2, 3, 4], P7.perms5) := by decide
  unfold P7.solve_1
  rw [hgp]
  rfl

/-- Claim C7, witness: instantiated at the trivial program 99 and the
identity enumeration of the permutation list. -/
theorem chain_max_over_permutations_witness :
    P7.solve_1 1 [99] = P7.chainMax (P7.perms5.map (P7.get_output 1 [99])) :=
  (chain_max_over_permutations 1 [99] 0 P7.perms5 (List.Perm.refl _)).2.1

/-- Claim C8: when the decoder yields an opcode outside the known set
1..9, 99, the parameter-count table and the dispatch table both
reject it, the step is an immediate fatal fault (no handler runs and
no successor state exists, so no memory cell is mutated), and a run
from this state terminates at once with that fault. -/
theorem unknown_opcode_fatal (m m1 : P9.IntcodeMachine) (opcode : Nat)
    (modes : List P9.Mode)
    (hdec : P9.decode_instruction m = some (opcode, modes, m1))
    (hop : opcode ∉ ([1, 2, 3, 4, 5, 6, 7, 8, 9, 99] : List Nat)) :
    P9.arg_count opcode = none ∧ P9.get_command opcode = none
    ∧ P9.execute_step m = .fault ∧ ∀ fuel, P9.run (fuel + 1) m = .fault := by
  have harg : P9.arg_count opcode = none := by
    unfold P9.arg_count
    split <;> simp_all
  have hcmd : P9.get_command opcode = none := by
    unfold P9.get_command
    split <;> simp_all
  have hstep : P9.execute_step m = .fault := by
    unfold P9.execute_step
    rw [hdec]
    dsimp only
    unfold P9.get_current_memory_slice
    rw [harg]
  exact ⟨harg, hcmd, hstep, fun fuel => by unfold P9.run; rw [hstep]⟩

/-- Claim C8, witness: opcode 42 faults the machine immediately. -/
theorem unknown_opcode_fatal_witness :
    P9.execute_step ⟨[42], 0, 0, none, [], []⟩ = .fault :=
  (unknown_opcode_fatal ⟨[42], 0, 0, none, [], []⟩ ⟨[42], 1, 0, none, [], []⟩
    42 [.position, .position, .position] (by decide) (by decide)).2.2.1

/-- Claim C9: a parameter in immediate (value) mode resolves to the
address of its own slot, namely the instruction pointer just past the
opcode word plus the parameter index; consequently an input
instruction whose destination is in immediate mode (word 103) is
well defined and writes the stored value into the parameter cell of
the instruction itself. -/
theorem immediate_mode_writes_own_slot (m : P9.IntcodeMachine) (i : Nat)
    (raw p : Int)
    (hw : m.memory.get? m.cmd_ptr = some 103)
    (hp : m.phase_setting = some p)
    (hb : m.cmd_ptr + 1 < m.memory.length) :
    P9.resolve { m with cmd_ptr := m.cmd_ptr + 1 } i raw .value = m.cmd_ptr + 1 + i
    ∧ P9.execute_step m = .ok { m with
        memory := m.memory.set (m.cmd_ptr + 1) p
        phase_setting := none
        cmd_ptr := m.cmd_ptr + 1 + 1 } := by
  have h103a : P9.Mode.from_code (usizeOf 103 / 10 ^ 2 % 10) = some .value := by decide
  have h103b : P9.Mode.from_code (usizeOf 103 / 10 ^ 3 % 10) = some .position := by decide
  have h103c : P9.Mode.from_code (usizeOf 103 / 10 ^ 4 % 10) = some .position := by decide
  have h103o : usizeOf 103 % 100 = 3 := by decide
  have hdec : P9.decode_instruction m
      = some (3, [.value, .position, .position], { m with cmd_ptr := m.cmd_ptr + 1 }) := by
    simp only [P9.decode_instruction, hw, h103a, h103b, h103c, h103o]
  have hdrop : m.memory.drop (m.cmd_ptr + 1)
      = m.memory[m.cmd_ptr + 1] :: m.memory.drop (m.cmd_ptr + 1 + 1) :=
    (List.getElem_cons_drop _ _ hb).symm
  have hslice : P9.get_current_memory_slice { m with cmd_ptr := m.cmd_ptr + 1 } 3
      = some [m.memory[m.cmd_ptr + 1]] := by
    unfold P9.get_current_memory_slice P9.arg_count
    dsimp only
    rw [if_pos (show m.cmd_ptr + 1 + 1 ≤ m.memory.length from hb), hdrop]
    rfl
  have hargs : P9.build_args { m with cmd_ptr := m.cmd_ptr + 1 } [m.memory[m.cmd_ptr + 1]]
      [.value, .position, .position] = [m.cmd_ptr + 1] := by
    simp [P9.build_args, P9.resolve]
  have hstore : P9.store { m with cmd_ptr := m.cmd_ptr + 1 } [m.cmd_ptr + 1]
      = .ok { m with
          memory := m.memory.set (m.cmd_ptr + 1) p
          phase_setting := none
          cmd_ptr := m.cmd_ptr + 1 + 1 } := by
    unfold P9.store
    dsimp only
    rw [hp]
    unfold P9.memWrite
    dsimp only
    rw [if_pos hb]
  constructor
  · rfl
  · unfold P9.execute_step
    rw [hdec]
    dsimp only
    rw [hslice]
    dsimp only
    rw [show P9.get_command 3 = some P9.store from rfl]
    dsimp only
    rw [hargs, hstore]

/-- Claim C9, witness: the instruction 103 at address 0 stores the
phase value 42 into its own parameter cell at address 1. -/
theorem immediate_mode_writes_own_slot_witness :
    P9.execute_step ⟨[103, 5, 99], 0, 0, some 42, [], []⟩
      = .ok ⟨[103, 42, 99], 2, 0, none, [], []⟩ :=
  (immediate_mode_writes_own_slot ⟨[103, 5, 99], 0, 0, some 42, [], []⟩ 0 0 42
    rfl rfl (by decide)).2

/-- Claim C10: the painting-robot constructor pre-seeds the panel grid
at the origin entry (500, 500) to 1 regardless of its arguments while
every other entry is 0, the robot starts at position (0, 0), the
input instruction stores the caller-supplied input_signal field, and
the first-phase driver builds its machine with initial input 0: that
first stored value 0 disagrees with the grid value 1 at the robot
starting position. -/
theorem robot_first_input_disagrees_with_origin (program : List Int) (sig : Int)
    (out : List (Int × Int)) (m : P11.IntcodeMachine) (dst : Nat)
    (hdst : dst < m.memory.length) :
    (P11.IntcodeMachine.new program sig out).panels 500 500 = 1
    ∧ (∀ x y, ¬(x = 500 ∧ y = 500) →
        (P11.IntcodeMachine.new program sig out).panels x y = 0)
    ∧ (P11.IntcodeMachine.new program sig out).position = (0, 0)
    ∧ (P11.IntcodeMachine.new program sig out).input_signal = sig
    ∧ (P11.store m [dst] = .ok { m with
        memory := m.memory.set dst m.input_signal
        cmd_ptr := m.cmd_ptr + 1 })
    ∧ (P11.solve_1_machine program).input_signal = 0
    ∧ (P11.solve_1_machine program).panels
        (usizeOf ((P11.solve_1_machine program).position.1 + 500))
        (usizeOf ((P11.solve_1_machine program).position.2 + 500)) = 1
    ∧ (P11.solve_1_machine program).input_signal
        ≠ (P11.solve_1_machine program).panels
            (usizeOf ((P11.solve_1_machine program).position.1 + 500))
            (usizeOf ((P11.solve_1_machine program).position.2 + 500)) := by
  have h7 : (P11.solve_1_machine program).panels
      (usizeOf ((P11.solve_1_machine program).position.1 + 500))
      (usizeOf ((P11.solve_1_machine program).position.2 + 500)) = 1 := rfl
  refine ⟨by simp [P11.IntcodeMachine.new], ?_, rfl, rfl, ?_, rfl, h7, ?_⟩
  · intro x y hxy
    simp [P11.IntcodeMachine.new, hxy]
  · unfold P11.store
    unfold P11.memWrite
    dsimp only
    rw [if_pos hdst]
  · rw [h7, show (P11.solve_1_machine program).input_signal = (0 : Int) from rfl]
    decide

/-- Claim C10, witness: for the concrete program 3,0,99 the driver
machine reads initial input 0 while the grid at the robot position
holds 1. -/
theorem robot_first_input_disagrees_with_origin_witness :
    (P11.solve_1_machine [3, 0, 99]).input_signal
      ≠ (P11.solve_1_machine [3, 0, 99]).panels
          (usizeOf ((P11.solve_1_machine [3, 0, 99]).position.1 + 500))
          (usizeOf ((P11.solve_1_machine [3, 0, 99]).position.2 + 500)) :=
  (robot_first_input_disagrees_with_origin [3, 0, 99] 0 []
    ⟨[3, 0, 99], 0, 0, 7, [], (0, 0), .up, true, fun _ _ => 0⟩ 1
    (by decide)).2.2.2.2.2.2.2
